import Mathlib

/-!
clean_newsletters: sender ledger and decision pipeline.

A shallow embedding of `internal/tracker/tracker.go` (the sender ledger) and of
`internal/newsletter/processor.go` (the per-message decision pipeline), with the
properties of the specification's section 8 stated over it.

Modelling conventions.

* A Go `string` holding valid UTF-8 is a Lean `String` (a list of Unicode scalar
  values). Every string that reaches this code was decoded from JSON (Gmail
  headers, the oracle's reply), so it is valid UTF-8.
* `strings.ToLower` / `strings.ToUpper` map every rune through `unicode.ToLower` /
  `unicode.ToUpper`. Those two tables belong to the Go standard library, so they
  are a parameter (`CaseTable`); `asciiCase` is the instance that agrees with Go
  on ASCII input and is used to evaluate examples.
* `map[string]*EmailRecord` is an association list. Go leaves the iteration order
  of a map unspecified; the order of the list stands for the order one particular
  `range` loop takes, and statements quantify over every list.
* `time.Now()` is an input: `RecordEmail` reads the clock twice on the paths that
  set two timestamps, so it receives two readings.
* The external collaborators of one `processEmail` call (oracle transport, file
  write, mailbox) are gathered in a `World`; the calls made are returned as a
  trace of `Effect`s.
-/

namespace CleanNewsletters

/-! ## Strings -/

/-- The rune mappings `unicode.ToLower` and `unicode.ToUpper` of the Go standard library. -/
structure CaseTable where
  toLower : Char → Char
  toUpper : Char → Char

/-- ASCII lower-casing: `'A'..'Z'` to `'a'..'z'`, every other rune unchanged. -/
def asciiToLower (c : Char) : Char :=
  if 65 ≤ c.toNat ∧ c.toNat ≤ 90 then Char.ofNat (c.toNat + 32) else c

/-- ASCII upper-casing: `'a'..'z'` to `'A'..'Z'`, every other rune unchanged. -/
def asciiToUpper (c : Char) : Char :=
  if 97 ≤ c.toNat ∧ c.toNat ≤ 122 then Char.ofNat (c.toNat - 32) else c

/-- The case tables restricted to ASCII letters (Go's fast path for ASCII strings). -/
def asciiCase : CaseTable := ⟨asciiToLower, asciiToUpper⟩

/-- Go `strings.ToLower`: every rune mapped through `unicode.ToLower`. -/
def ToLower (T : CaseTable) (s : String) : String := ⟨s.data.map T.toLower⟩

/-- Go `strings.ToUpper`: every rune mapped through `unicode.ToUpper`. -/
def ToUpper (T : CaseTable) (s : String) : String := ⟨s.data.map T.toUpper⟩

/-- Go `unicode.IsSpace`: the Latin-1 spaces and the Unicode `White_Space` property. -/
def isSpace (c : Char) : Bool :=
  decide ((9 ≤ c.toNat ∧ c.toNat ≤ 13) ∨ c.toNat = 0x20 ∨ c.toNat = 0x85 ∨ c.toNat = 0xA0 ∨
    c.toNat = 0x1680 ∨ (0x2000 ≤ c.toNat ∧ c.toNat ≤ 0x200A) ∨ c.toNat = 0x2028 ∨
    c.toNat = 0x2029 ∨ c.toNat = 0x202F ∨ c.toNat = 0x205F ∨ c.toNat = 0x3000)

/-- Go `strings.TrimSpace`: leading, then trailing, white space removed. -/
def TrimSpace (s : String) : String :=
  ⟨((s.data.dropWhile isSpace).reverse.dropWhile isSpace).reverse⟩

/-- Go `strings.Split(s, sep)` for a separator of one rune: the pieces between
occurrences of `sep`; always at least one piece. -/
def splitRunes (sep : Char) : List Char → List (List Char)
  | [] => [[]]
  | c :: cs =>
    if c = sep then [] :: splitRunes sep cs
    else
      match splitRunes sep cs with
      | [] => [[c]]
      | p :: ps => (c :: p) :: ps

/-- Go `strings.Split(s, "@")`. -/
def SplitAt (s : String) : List String := (splitRunes '@' s.data).map String.mk

/-! ## tracker.go -/

/-- Go `time.Time`, as a number of clock ticks; `0` is the zero value (an unset time). -/
abbrev Time := Nat

/-- Go `type EmailStatus string`. -/
abbrev EmailStatus := String

def StatusSubscribed : EmailStatus := "subscribed"
def StatusUnsubscribed : EmailStatus := "unsubscribed"
def StatusUnknown : EmailStatus := "unknown"

/-- Go `int` on a 64-bit platform: the value wrapped into `[-2^63, 2^63)`. -/
def wrapInt64 (n : Int) : Int := (n + 2 ^ 63) % 2 ^ 64 - 2 ^ 63

structure EmailRecord where
  Email : String
  Domain : String
  Status : EmailStatus
  FirstSeen : Time
  LastSeen : Time
  SeenCount : Int
  LastAction : Time
deriving DecidableEq, Repr

/-- The `records` map of a `Tracker`. -/
abbrev Records := List (String × EmailRecord)

/-- Map read `m[key]`: the record and whether it exists. -/
def mapGet : Records → String → Option EmailRecord
  | [], _ => none
  | (k, v) :: m, key => if k = key then some v else mapGet m key

/-- Map write `m[key] = v`: the existing binding is replaced, a new one is added. -/
def mapSet : Records → String → EmailRecord → Records
  | [], key, v => [(key, v)]
  | (k, w) :: m, key, v => if k = key then (k, v) :: m else (k, w) :: mapSet m key v

/-- The in-memory state of a `Tracker` (the mutex and the file path carry no data
the operations below depend on). -/
structure Tracker where
  records : Records
deriving DecidableEq, Repr

/-- The tracker `NewTracker` builds when no ledger file exists. -/
def emptyTracker : Tracker := ⟨[]⟩

/-- Go `extractDomain`. -/
def extractDomain (T : CaseTable) (email : String) : String :=
  let parts := SplitAt (ToLower T email)
  if 2 ≤ parts.length then parts.getD 1 "" else ""

/-- Go `Tracker.RecordEmail`. `now₁` and `now₂` are the first and the second reading of
`time.Now()` (the second is read only where the code reads it); `saveErr` is what
`t.save()` returns. The in-memory update stays whatever `save` returns. -/
def RecordEmail (T : CaseTable) (t : Tracker) (email : String) (status : EmailStatus)
    (now₁ now₂ : Time) (saveErr : Option String) : Tracker × Option String :=
  let key := ToLower T email
  let domain := extractDomain T email
  match mapGet t.records key with
  | some record =>
    let record := { record with LastSeen := now₁ }
    let record := { record with SeenCount := wrapInt64 (record.SeenCount + 1) }
    let record :=
      if record.Status ≠ status then
        { record with Status := status, LastAction := now₂ }
      else record
    (⟨mapSet t.records key record⟩, saveErr)
  | none =>
    (⟨mapSet t.records key
        { Email := email, Domain := domain, Status := status,
          FirstSeen := now₁, LastSeen := now₂, SeenCount := 1, LastAction := 0 }⟩, saveErr)

/-- The domain fallback loop of `GetStatus` over the records in iteration order. -/
def scanDomain (domain : String) : List EmailRecord → EmailStatus
  | [] => StatusUnknown
  | record :: rest =>
    if record.Domain = domain ∧ record.Status ≠ StatusUnknown then record.Status
    else scanDomain domain rest

/-- Go `Tracker.GetStatus`. -/
def GetStatus (T : CaseTable) (t : Tracker) (email : String) : EmailStatus :=
  let key := ToLower T email
  match mapGet t.records key with
  | some record => record.Status
  | none =>
    let domain := extractDomain T email
    scanDomain domain (t.records.map Prod.snd)

/-- Go `Tracker.GetSubscribedEmails`. -/
def GetSubscribedEmails (t : Tracker) : List String :=
  (t.records.filter (fun kv => kv.2.Status = StatusSubscribed)).map (fun kv => kv.2.Email)

/-- The four entries of the map `GetStatistics` returns. -/
structure Statistics where
  total_emails : Int
  subscribed_count : Int
  unsubscribed_count : Int
  unknown_count : Int
deriving DecidableEq, Repr

/-- One step of the counting loop of `GetStatistics` (the `switch` has no default).
Each counter stays at or below `len(t.records)`, itself a Go `int`, so the additions
cannot overflow and are plain integer additions. -/
def countRecord (stats : Statistics) (record : EmailRecord) : Statistics :=
  if record.Status = StatusSubscribed then
    { stats with subscribed_count := stats.subscribed_count + 1 }
  else if record.Status = StatusUnsubscribed then
    { stats with unsubscribed_count := stats.unsubscribed_count + 1 }
  else if record.Status = StatusUnknown then
    { stats with unknown_count := stats.unknown_count + 1 }
  else stats

/-- Go `Tracker.GetStatistics`. -/
def GetStatistics (t : Tracker) : Statistics :=
  (t.records.map Prod.snd).foldl countRecord
    { total_emails := (t.records.length : Int), subscribed_count := 0,
      unsubscribed_count := 0, unknown_count := 0 }

/-! ## processor.go -/

def LabelNewsletter : String := "Newsletter"
def LabelUnsubscribe : String := "Unsubscribe"

/-- Go `email.Email`. -/
structure Email where
  ID : String
  From : String
  Subject : String
  Body : String
deriving DecidableEq, Repr

/-- The data the two oracle prompts are formatted from. The newsletter prompt embeds
the sender, the subject and `truncateString(Body, 500)`, a function of the body; the
subscription prompt embeds the sender, the subject and the candidate list. -/
inductive Prompt where
  | newsletter (sender subject body : String)
  | subscribed (sender subject : String) (subscribedList : List String)
deriving DecidableEq, Repr

/-- The last check of both oracle functions:
`strings.TrimSpace(strings.ToUpper(response)) == "YES"`. -/
def replyIsYes (T : CaseTable) (response : String) : Bool :=
  decide (TrimSpace (ToUpper T response) = "YES")

/-- The reply check in the order the specification words it: trim, then upper-case,
then compare with `"YES"`. -/
def specReplyIsYes (T : CaseTable) (response : String) : Bool :=
  decide (ToUpper T (TrimSpace response) = "YES")

/-- A call `processEmail` makes on something outside the process memory. -/
inductive Effect where
  | complete (prompt : Prompt)
  | writeFile
  | applyLabel (id label : String)
deriving DecidableEq, Repr

/-- What the outside answers during one `processEmail` call: the oracle transport
`llmClient.Complete`, the file write of `save`, the mailbox `ApplyLabel`, and the two
clock readings of `RecordEmail`. -/
structure World where
  complete : Prompt → Except String String
  saveErr : Option String
  applyLabel : String → String → Option String
  now₁ : Time
  now₂ : Time

/-- Go `Processor.isNewsletter`: the result and the calls made. -/
def isNewsletter (T : CaseTable) (w : World) (email : Email) :
    Except String Bool × List Effect :=
  let prompt := Prompt.newsletter email.From email.Subject email.Body
  match w.complete prompt with
  | .error err => (.error err, [Effect.complete prompt])
  | .ok response => (.ok (replyIsYes T response), [Effect.complete prompt])

/-- Go `Processor.isSubscribedNewsletter`: the result and the calls made. `seed` is
`config.SubscribedEmails`. -/
def isSubscribedNewsletter (T : CaseTable) (seed : List String) (t : Tracker) (w : World)
    (email : Email) : Except String Bool × List Effect :=
  let subscribedList := seed ++ GetSubscribedEmails t
  if subscribedList.length = 0 then (.ok false, [])
  else
    let prompt := Prompt.subscribed email.From email.Subject subscribedList
    match w.complete prompt with
    | .error err => (.error err, [Effect.complete prompt])
    | .ok response => (.ok (replyIsYes T response), [Effect.complete prompt])

/-- The result of one `processEmail` call: the tracker afterwards, the calls made in
order, and the returned error (`none` is `nil`). -/
structure Outcome where
  tracker : Tracker
  trace : List Effect
  err : Option String

/-- The second half of `processEmail`, from the choice of the label on. -/
def applyOutcome (T : CaseTable) (t : Tracker) (w : World) (email : Email)
    (isSubscribed : Bool) (asked : List Effect) : Outcome :=
  let label := if isSubscribed then LabelNewsletter else LabelUnsubscribe
  let trackerStatus := if isSubscribed then StatusSubscribed else StatusUnsubscribed
  -- a failure of RecordEmail is logged only
  let recorded := RecordEmail T t email.From trackerStatus w.now₁ w.now₂ w.saveErr
  let trace := asked ++ [Effect.writeFile, Effect.applyLabel email.ID label]
  match w.applyLabel email.ID label with
  | some err => ⟨recorded.1, trace, some ("failed to apply label: " ++ err)⟩
  | none => ⟨recorded.1, trace, none⟩

/-- Go `Processor.processEmail`. -/
def processEmail (T : CaseTable) (seed : List String) (t : Tracker) (w : World)
    (email : Email) : Outcome :=
  match isNewsletter T w email with
  | (.error err, asked) => ⟨t, asked, some ("failed to check if newsletter: " ++ err)⟩
  | (.ok false, asked) => ⟨t, asked, none⟩
  | (.ok true, asked) =>
    let status := GetStatus T t email.From
    if status = StatusSubscribed then applyOutcome T t w email true asked
    else if status = StatusUnsubscribed then applyOutcome T t w email false asked
    else
      match isSubscribedNewsletter T seed t w email with
      | (.error err, asked₂) =>
        ⟨t, asked ++ asked₂, some ("failed to check if subscribed: " ++ err)⟩
      | (.ok isSubscribed, asked₂) => applyOutcome T t w email isSubscribed (asked ++ asked₂)

/-- The message loop of `ProcessInbox`: every message is processed against the tracker
its predecessors left, a failed message is logged and the loop goes on. Each message
comes with the world that answers its calls. -/
def processEmails (T : CaseTable) (seed : List String) :
    Tracker → List (Email × World) → Tracker × List Outcome
  | t, [] => (t, [])
  | t, (email, w) :: rest =>
    let out := processEmail T seed t w email
    let res := processEmails T seed out.tracker rest
    (res.1, out :: res.2)

/-- Every stored record carries one of the two decisions `processEmail` records. -/
def AllDecided (t : Tracker) : Prop :=
  ∀ kv ∈ t.records, kv.2.Status = StatusSubscribed ∨ kv.2.Status = StatusUnsubscribed

/-- The newsletter prompt of a message. -/
def newsletterPrompt (email : Email) : Prompt :=
  Prompt.newsletter email.From email.Subject email.Body

/-- The oracle answers the newsletter prompt of the message without a transport error
and the reply passes the YES check. -/
def AnswersYes (T : CaseTable) (w : World) (email : Email) : Prop :=
  ∃ reply, w.complete (newsletterPrompt email) = .ok reply ∧ replyIsYes T reply = true

/-- Records with the same domain carry the same status. -/
def DomainsAgree (rs : Records) : Prop :=
  ∀ kv₁ ∈ rs, ∀ kv₂ ∈ rs, kv₁.2.Domain = kv₂.2.Domain → kv₁.2.Status = kv₂.2.Status

/-- Every record sits under the lower-cased form of its address and carries the domain
derived from that address. -/
def KeysDerived (T : CaseTable) (rs : Records) : Prop :=
  ∀ kv ∈ rs, kv.1 = ToLower T kv.2.Email ∧ kv.2.Domain = extractDomain T kv.2.Email

/-- The invariant of the ledgers `processEmail` builds from the empty one: decided
statuses, one binding per key, keys and domains derived from the address, and agreement
of the statuses within a domain. -/
def LedgerInv (T : CaseTable) (t : Tracker) : Prop :=
  AllDecided t ∧ (t.records.map Prod.fst).Nodup ∧ KeysDerived T t.records ∧
    DomainsAgree t.records

/-! ## Example inputs -/

/-- A world whose oracle replies `" yes\n"` to every prompt and where nothing fails. -/
def yesWorld : World :=
  { complete := fun _ => .ok " yes\n", saveErr := none, applyLabel := fun _ _ => none,
    now₁ := 20, now₂ := 21 }

/-- A world whose oracle replies `"No."` to every prompt and where nothing fails. -/
def noWorld : World :=
  { complete := fun _ => .ok "No.", saveErr := none, applyLabel := fun _ _ => none,
    now₁ := 20, now₂ := 21 }

def digestEmail : Email :=
  { ID := "m1", From := "News@Sender.com", Subject := "Weekly digest", Body := "Hello" }

def offerEmail : Email :=
  { ID := "m2", From := "News@Sender.com", Subject := "Offer", Body := "Buy now" }

/-- The ledger after one Subscribed decision for `news@sender.com`. -/
def senderSubscribed : Tracker :=
  (RecordEmail asciiCase emptyTracker "news@sender.com" StatusSubscribed 10 11 none).1

/-- A world whose oracle replies `"YES"` to the newsletter prompt and `"NO"` to the
subscription prompt, and where nothing fails. -/
def newsletterOnlyWorld : World :=
  { complete := fun p =>
      match p with
      | .newsletter _ _ _ => .ok "YES"
      | .subscribed _ _ _ => .ok "NO",
    saveErr := none, applyLabel := fun _ _ => none, now₁ := 30, now₂ := 31 }

def promoEmail : Email :=
  { ID := "m3", From := "promo@sender.com", Subject := "Sale", Body := "50% off" }

/-- The ledger after a digest the oracle files under the seed sender, then a promotion
from the same domain. -/
def twoSenders : Tracker :=
  (processEmails asciiCase ["news@sender.com"] emptyTracker
    [(digestEmail, yesWorld), (promoEmail, newsletterOnlyWorld)]).1

/-! ## Map and string lemmas -/

theorem mapGet_mapSet_self (m : Records) (key : String) (v : EmailRecord) :
    mapGet (mapSet m key v) key = some v := by
  induction m with
  | nil => simp [mapSet, mapGet]
  | cons kv m ih =>
    obtain ⟨k, w⟩ := kv
    by_cases hk : k = key
    · simp [mapSet, mapGet, hk]
    · simp [mapSet, mapGet, hk, ih]

theorem mapGet_mapSet_of_ne (m : Records) (key other : String) (v : EmailRecord)
    (h : key ≠ other) : mapGet (mapSet m key v) other = mapGet m other := by
  induction m with
  | nil => simp [mapSet, mapGet, h]
  | cons kv m ih =>
    obtain ⟨k, w⟩ := kv
    by_cases hk : k = key
    · subst hk
      simp [mapSet, mapGet, h]
    · by_cases ho : k = other
      · subst ho
        simp [mapSet, mapGet, hk]
      · simp [mapSet, mapGet, hk, ho, ih]

theorem scanDomain_of_no_match (domain : String) (rs : List EmailRecord)
    (h : ∀ r ∈ rs, r.Domain ≠ domain) : scanDomain domain rs = StatusUnknown := by
  induction rs with
  | nil => rfl
  | cons r rs ih =>
    have hr : r.Domain ≠ domain := h r (List.mem_cons_self _ _)
    have hrest : ∀ r' ∈ rs, r'.Domain ≠ domain := fun r' hr' =>
      h r' (List.mem_cons_of_mem _ hr')
    simp [scanDomain, hr, ih hrest]

/-- The record `RecordEmail` leaves under the lower-cased address when none was there. -/
theorem recordEmail_fresh (T : CaseTable) (t : Tracker) (a : String) (S : EmailStatus)
    (n₁ n₂ : Time) (e : Option String) (h : mapGet t.records (ToLower T a) = none) :
    mapGet (RecordEmail T t a S n₁ n₂ e).1.records (ToLower T a) =
      some { Email := a, Domain := extractDomain T a, Status := S, FirstSeen := n₁,
             LastSeen := n₂, SeenCount := 1, LastAction := 0 } := by
  simp [RecordEmail, h, mapGet_mapSet_self]

/-- The record `RecordEmail` leaves under the lower-cased address when one was there. -/
theorem recordEmail_existing (T : CaseTable) (t : Tracker) (a : String) (S : EmailStatus)
    (n₁ n₂ : Time) (e : Option String) (r : EmailRecord)
    (h : mapGet t.records (ToLower T a) = some r) :
    mapGet (RecordEmail T t a S n₁ n₂ e).1.records (ToLower T a) =
      some (if r.Status ≠ S then
              { r with LastSeen := n₁, SeenCount := wrapInt64 (r.SeenCount + 1),
                       Status := S, LastAction := n₂ }
            else { r with LastSeen := n₁, SeenCount := wrapInt64 (r.SeenCount + 1) }) := by
  simp only [RecordEmail, h, mapGet_mapSet_self]

/-- Upper-casing commutes with trimming when the case table keeps white space white
space and everything else not white space. -/
theorem trimSpace_toUpper_comm (T : CaseTable)
    (hsp : ∀ c, isSpace (T.toUpper c) = isSpace c) (s : String) :
    TrimSpace (ToUpper T s) = ToUpper T (TrimSpace s) := by
  have hcomp : (isSpace ∘ T.toUpper) = isSpace := funext hsp
  simp only [TrimSpace, ToUpper]
  congr 1
  rw [List.dropWhile_map, hcomp, ← List.map_reverse, List.dropWhile_map, hcomp,
    ← List.map_reverse]

/-- The ASCII upper-casing moves no rune into or out of the white space class. -/
theorem asciiToUpper_isSpace (c : Char) : isSpace (asciiToUpper c) = isSpace c := by
  unfold asciiToUpper
  split_ifs with h
  · obtain ⟨h1, h2⟩ := h
    have hc := Char.ofNat_toNat c
    generalize c.toNat = n at h1 h2 hc
    subst hc
    interval_cases n <;> rfl
  · rfl

/-- Members of the map after a write: old bindings, or a binding to the written record. -/
theorem mem_mapSet (m : Records) (key : String) (v : EmailRecord) (kv : String × EmailRecord)
    (h : kv ∈ mapSet m key v) : kv ∈ m ∨ kv.2 = v := by
  induction m with
  | nil =>
    simp [mapSet] at h
    right
    rw [h]
  | cons head m ih =>
    obtain ⟨k, w⟩ := head
    by_cases hk : k = key
    · simp [mapSet, hk] at h
      rcases h with h | h
      · right
        rw [h]
      · left
        exact List.mem_cons_of_mem _ h
    · simp [mapSet, hk] at h
      rcases h with h | h
      · left
        rw [h]
        exact List.mem_cons_self _ _
      · rcases ih h with h' | h'
        · left
          exact List.mem_cons_of_mem _ h'
        · right
          exact h'

/-- A key that is read is bound in the list. -/
theorem mem_of_mapGet (m : Records) (key : String) (r : EmailRecord)
    (h : mapGet m key = some r) : (key, r) ∈ m := by
  induction m with
  | nil => simp [mapGet] at h
  | cons head m ih =>
    obtain ⟨k, w⟩ := head
    by_cases hk : k = key
    · simp [mapGet, hk] at h
      simp [hk, h]
    · simp [mapGet, hk] at h
      exact List.mem_cons_of_mem _ (ih h)

/-! ## Pipeline lemmas -/

theorem isNewsletter_of_answersYes (T : CaseTable) (w : World) (email : Email)
    (h : AnswersYes T w email) :
    isNewsletter T w email = (.ok true, [Effect.complete (newsletterPrompt email)]) := by
  obtain ⟨reply, hreply, hyes⟩ := h
  simp only [newsletterPrompt] at hreply
  simp [isNewsletter, newsletterPrompt, hreply, hyes]

theorem applyOutcome_tracker (T : CaseTable) (t : Tracker) (w : World) (email : Email)
    (b : Bool) (asked : List Effect) :
    (applyOutcome T t w email b asked).tracker =
      (RecordEmail T t email.From (if b then StatusSubscribed else StatusUnsubscribed)
        w.now₁ w.now₂ w.saveErr).1 := by
  unfold applyOutcome
  dsimp only
  split <;> rfl

theorem applyOutcome_trace (T : CaseTable) (t : Tracker) (w : World) (email : Email)
    (b : Bool) (asked : List Effect) :
    (applyOutcome T t w email b asked).trace =
      asked ++ [Effect.writeFile,
        Effect.applyLabel email.ID (if b then LabelNewsletter else LabelUnsubscribe)] := by
  unfold applyOutcome
  dsimp only
  split <;> rfl

/-- The tracker after `processEmail` is the tracker before, or the tracker before with
one `RecordEmail` of the sender at Subscribed or Unsubscribed. -/
theorem processEmail_tracker_cases (T : CaseTable) (seed : List String) (t : Tracker)
    (w : World) (email : Email) :
    (processEmail T seed t w email).tracker = t ∨
    ∃ b : Bool, (processEmail T seed t w email).tracker =
      (RecordEmail T t email.From (if b then StatusSubscribed else StatusUnsubscribed)
        w.now₁ w.now₂ w.saveErr).1 := by
  unfold processEmail
  split
  · exact Or.inl rfl
  · exact Or.inl rfl
  · dsimp only
    split_ifs
    · exact Or.inr ⟨true, applyOutcome_tracker _ _ _ _ _ _⟩
    · exact Or.inr ⟨false, applyOutcome_tracker _ _ _ _ _ _⟩
    · split
      · exact Or.inl rfl
      · exact Or.inr ⟨_, applyOutcome_tracker _ _ _ _ _ _⟩

theorem recordEmail_allDecided (T : CaseTable) (t : Tracker) (a : String) (S : EmailStatus)
    (n₁ n₂ : Time) (e : Option String) (ht : AllDecided t)
    (hS : S = StatusSubscribed ∨ S = StatusUnsubscribed) :
    AllDecided (RecordEmail T t a S n₁ n₂ e).1 := by
  intro kv hkv
  unfold RecordEmail at hkv
  cases hget : mapGet t.records (ToLower T a) with
  | none =>
    simp only [hget] at hkv
    rcases mem_mapSet _ _ _ _ hkv with h | h
    · exact ht kv h
    · rw [h]
      exact hS
  | some r =>
    simp only [hget] at hkv
    rcases mem_mapSet _ _ _ _ hkv with h | h
    · exact ht kv h
    · rw [h]
      by_cases hs : r.Status = S
      · simp [hs, hS]
      · simp [hs, hS]

theorem processEmail_allDecided (T : CaseTable) (seed : List String) (t : Tracker)
    (w : World) (email : Email) (ht : AllDecided t) :
    AllDecided (processEmail T seed t w email).tracker := by
  rcases processEmail_tracker_cases T seed t w email with h | ⟨b, h⟩
  · rw [h]
    exact ht
  · rw [h]
    apply recordEmail_allDecided _ _ _ _ _ _ _ ht
    cases b
    · exact Or.inr rfl
    · exact Or.inl rfl

theorem processEmails_allDecided (T : CaseTable) (seed : List String)
    (batch : List (Email × World)) (t : Tracker) (ht : AllDecided t) :
    AllDecided (processEmails T seed t batch).1 := by
  induction batch generalizing t with
  | nil => exact ht
  | cons m rest ih =>
    obtain ⟨email, w⟩ := m
    exact ih _ (processEmail_allDecided T seed t w email ht)

/-- The counting loop over records that are all Subscribed or Unsubscribed. -/
theorem foldl_countRecord_decided (rs : List EmailRecord) (st : Statistics)
    (h : ∀ r ∈ rs, r.Status = StatusSubscribed ∨ r.Status = StatusUnsubscribed) :
    (rs.foldl countRecord st).total_emails = st.total_emails ∧
    (rs.foldl countRecord st).unknown_count = st.unknown_count ∧
    (rs.foldl countRecord st).subscribed_count + (rs.foldl countRecord st).unsubscribed_count =
      st.subscribed_count + st.unsubscribed_count + (rs.length : Int) := by
  induction rs generalizing st with
  | nil => simp
  | cons r rs ih =>
    have hr := h r (List.mem_cons_self _ _)
    have hrest : ∀ r' ∈ rs, r'.Status = StatusSubscribed ∨ r'.Status = StatusUnsubscribed :=
      fun r' hr' => h r' (List.mem_cons_of_mem _ hr')
    obtain ⟨h1, h2, h3⟩ := ih (countRecord st r) hrest
    have hne : StatusUnsubscribed ≠ StatusSubscribed := by decide
    simp only [List.foldl_cons, List.length_cons]
    rw [h1, h2, h3]
    rcases hr with hs | hs
    · simp only [countRecord, hs, if_true]
      refine ⟨trivial, trivial, ?_⟩
      push_cast
      ring
    · simp only [countRecord, hs, hne, if_true, if_false]
      refine ⟨trivial, trivial, ?_⟩
      push_cast
      ring

/-- One message of a sender whose own record is at Subscribed, when the newsletter
check answers YES: the calls made and the record afterwards. -/
theorem processEmail_of_subscribed (T : CaseTable) (seed : List String) (t : Tracker)
    (w : World) (email : Email) (r : EmailRecord)
    (hr : mapGet t.records (ToLower T email.From) = some r)
    (hs : r.Status = StatusSubscribed) (hyes : AnswersYes T w email) :
    (processEmail T seed t w email).trace =
      [Effect.complete (newsletterPrompt email), Effect.writeFile,
       Effect.applyLabel email.ID LabelNewsletter] ∧
    ∃ r', mapGet (processEmail T seed t w email).tracker.records (ToLower T email.From) =
        some r' ∧ r'.Status = StatusSubscribed := by
  have hstatus : GetStatus T t email.From = StatusSubscribed := by
    simp [GetStatus, hr, hs]
  have hproc : processEmail T seed t w email =
      applyOutcome T t w email true [Effect.complete (newsletterPrompt email)] := by
    simp [processEmail, isNewsletter_of_answersYes T w email hyes, hstatus]
  rw [hproc, applyOutcome_trace, applyOutcome_tracker]
  refine ⟨by simp, ?_⟩
  rw [recordEmail_existing T t email.From _ w.now₁ w.now₂ w.saveErr r hr]
  simp [hs]

/-! ## Lemmas on the domain agreement -/

theorem mem_mapSet_eq (m : Records) (key : String) (v : EmailRecord)
    (kv : String × EmailRecord) (h : kv ∈ mapSet m key v) : kv ∈ m ∨ kv = (key, v) := by
  induction m with
  | nil =>
    simp [mapSet] at h
    exact Or.inr h
  | cons head m ih =>
    obtain ⟨k, w⟩ := head
    by_cases hk : k = key
    · subst hk
      simp [mapSet] at h
      rcases h with h | h
      · exact Or.inr h
      · exact Or.inl (List.mem_cons_of_mem _ h)
    · simp [mapSet, hk] at h
      rcases h with h | h
      · left
        rw [h]
        exact List.mem_cons_self _ _
      · rcases ih h with h' | h'
        · exact Or.inl (List.mem_cons_of_mem _ h')
        · exact Or.inr h'

theorem mapGet_eq_none_of_not_mem_keys (m : Records) (key : String)
    (h : key ∉ m.map Prod.fst) : mapGet m key = none := by
  induction m with
  | nil => rfl
  | cons head m ih =>
    obtain ⟨k, w⟩ := head
    simp only [List.map_cons, List.mem_cons, not_or] at h
    have hk : ¬ k = key := fun hk => h.1 hk.symm
    simp [mapGet, hk, ih h.2]

theorem mem_keys_of_mapGet (m : Records) (key : String) (r : EmailRecord)
    (h : mapGet m key = some r) : key ∈ m.map Prod.fst :=
  List.mem_map.mpr ⟨(key, r), mem_of_mapGet m key r h, rfl⟩

/-- The keys after a map write: unchanged for a bound key, one more for a new key. -/
theorem keys_mapSet (m : Records) (key : String) (v : EmailRecord) :
    (mapSet m key v).map Prod.fst =
      if key ∈ m.map Prod.fst then m.map Prod.fst else m.map Prod.fst ++ [key] := by
  induction m with
  | nil => simp [mapSet]
  | cons head m ih =>
    obtain ⟨k, w⟩ := head
    by_cases hk : k = key
    · subst hk
      simp [mapSet]
    · have hk' : ¬ key = k := fun h => hk h.symm
      simp only [mapSet, hk, if_false, List.map_cons, ih, List.mem_cons, hk', false_or]
      split_ifs <;> simp

theorem nodup_keys_mapSet (m : Records) (key : String) (v : EmailRecord)
    (h : (m.map Prod.fst).Nodup) : ((mapSet m key v).map Prod.fst).Nodup := by
  rw [keys_mapSet]
  split_ifs with hmem
  · exact h
  · rw [List.nodup_append]
    refine ⟨h, List.nodup_singleton _, ?_⟩
    intro x hx hx'
    rw [List.mem_singleton] at hx'
    subst hx'
    exact hmem hx

/-- With one binding per key, a read returns exactly the bound record. -/
theorem mapGet_of_mem (m : Records) (key : String) (r : EmailRecord)
    (hnd : (m.map Prod.fst).Nodup) (h : (key, r) ∈ m) : mapGet m key = some r := by
  induction m with
  | nil => simp at h
  | cons head m ih =>
    obtain ⟨k, w⟩ := head
    simp only [List.map_cons, List.nodup_cons] at hnd
    rcases List.mem_cons.mp h with h | h
    · cases h
      simp [mapGet]
    · have hk : ¬ k = key := by
        intro hk
        subst hk
        exact hnd.1 (List.mem_map.mpr ⟨(k, r), h, rfl⟩)
      simp [mapGet, hk, ih hnd.2 h]

/-- With one binding per key, a read does not depend on the order of the bindings. -/
theorem mapGet_perm (m m' : Records) (key : String) (hnd : (m.map Prod.fst).Nodup)
    (hp : m'.Perm m) : mapGet m' key = mapGet m key := by
  have hnd' : (m'.map Prod.fst).Nodup := (hp.map Prod.fst).nodup_iff.mpr hnd
  cases h : mapGet m key with
  | some r => exact mapGet_of_mem m' key r hnd' (hp.mem_iff.mpr (mem_of_mapGet m key r h))
  | none =>
    cases h' : mapGet m' key with
    | none => rfl
    | some r' =>
      have := mapGet_of_mem m key r' hnd (hp.mem_iff.mp (mem_of_mapGet m' key r' h'))
      rw [h] at this
      cases this

/-- The fallback loop over records with decided statuses that agree within a domain
returns the status of every record of the domain. -/
theorem scanDomain_eq_of_agree (domain : String) (rs : List EmailRecord)
    (hdec : ∀ r ∈ rs, r.Status = StatusSubscribed ∨ r.Status = StatusUnsubscribed)
    (hag : ∀ r₁ ∈ rs, ∀ r₂ ∈ rs, r₁.Domain = r₂.Domain → r₁.Status = r₂.Status)
    (r : EmailRecord) (hr : r ∈ rs) (hd : r.Domain = domain) :
    scanDomain domain rs = r.Status := by
  induction rs with
  | nil => simp at hr
  | cons x xs ih =>
    by_cases hx : x.Domain = domain
    · have hne : x.Status ≠ StatusUnknown := by
        rcases hdec x (List.mem_cons_self _ _) with h | h <;> rw [h] <;> decide
      have hsame : x.Status = r.Status :=
        hag x (List.mem_cons_self _ _) r hr (hx.trans hd.symm)
      rw [← hsame]
      simp [scanDomain, hx, hne]
    · have hrx : r ∈ xs := by
        rcases List.mem_cons.mp hr with h | h
        · subst h
          exact absurd hd hx
        · exact h
      have := ih (fun r' hr' => hdec r' (List.mem_cons_of_mem _ hr'))
        (fun r₁ h₁ r₂ h₂ => hag r₁ (List.mem_cons_of_mem _ h₁) r₂ (List.mem_cons_of_mem _ h₂))
        hrx
      simp [scanDomain, hx, this]

theorem domainsAgree_mapSet (m : Records) (key : String) (v : EmailRecord)
    (hag : DomainsAgree m)
    (hv : ∀ kv ∈ m, kv.2.Domain = v.Domain → kv.2.Status = v.Status) :
    DomainsAgree (mapSet m key v) := by
  intro kv₁ h₁ kv₂ h₂ hd
  rcases mem_mapSet_eq m key v kv₁ h₁ with h₁ | h₁ <;>
    rcases mem_mapSet_eq m key v kv₂ h₂ with h₂ | h₂
  · exact hag kv₁ h₁ kv₂ h₂ hd
  · subst h₂
    exact hv kv₁ h₁ hd
  · subst h₁
    exact (hv kv₂ h₂ hd.symm).symm
  · subst h₁
    subst h₂
    rfl

/-- A write of `RecordEmail` leaves the bindings of the other keys alone. -/
theorem recordEmail_other_key (T : CaseTable) (t : Tracker) (a : String) (S : EmailStatus)
    (n₁ n₂ : Time) (e : Option String) (key : String) (h : ToLower T a ≠ key) :
    mapGet (RecordEmail T t a S n₁ n₂ e).1.records key = mapGet t.records key := by
  cases hget : mapGet t.records (ToLower T a) <;>
    simp [RecordEmail, hget, mapGet_mapSet_of_ne _ _ _ _ h]

/-- The status `GetStatus` returns for an address whose own record exists. -/
theorem getStatus_of_mapGet (T : CaseTable) (t : Tracker) (a : String) (r : EmailRecord)
    (h : mapGet t.records (ToLower T a) = some r) : GetStatus T t a = r.Status := by
  simp [GetStatus, h]

/-- In a ledger that satisfies the invariant, the status to record agrees with the
status of the own record when `GetStatus` constrains it. -/
theorem status_eq_of_own_record (T : CaseTable) (t : Tracker) (a : String)
    (S : EmailStatus) (r : EmailRecord) (hinv : LedgerInv T t)
    (h1 : GetStatus T t a = StatusSubscribed → S = StatusSubscribed)
    (h2 : GetStatus T t a = StatusUnsubscribed → S = StatusUnsubscribed)
    (hget : mapGet t.records (ToLower T a) = some r) : r.Status = S := by
  have hst := getStatus_of_mapGet T t a r hget
  rcases hinv.1 _ (mem_of_mapGet _ _ _ hget) with h | h
  · simp only at h
    rw [h]
    exact (h1 (hst.trans h)).symm
  · simp only at h
    rw [h]
    exact (h2 (hst.trans h)).symm

/-- The invariant survives a `RecordEmail` whose status is Subscribed or Unsubscribed and
is the one `GetStatus` returned when that was Subscribed or Unsubscribed. -/
theorem recordEmail_ledgerInv (T : CaseTable) (t : Tracker) (a : String) (S : EmailStatus)
    (n₁ n₂ : Time) (e : Option String) (hinv : LedgerInv T t)
    (hS : S = StatusSubscribed ∨ S = StatusUnsubscribed)
    (h1 : GetStatus T t a = StatusSubscribed → S = StatusSubscribed)
    (h2 : GetStatus T t a = StatusUnsubscribed → S = StatusUnsubscribed) :
    LedgerInv T (RecordEmail T t a S n₁ n₂ e).1 := by
  have hinv' := hinv
  obtain ⟨hdec, hnd, hkeys, hag⟩ := hinv
  refine ⟨recordEmail_allDecided T t a S n₁ n₂ e hdec hS, ?_⟩
  cases hget : mapGet t.records (ToLower T a) with
  | none =>
    have hrec : (RecordEmail T t a S n₁ n₂ e).1.records =
        mapSet t.records (ToLower T a)
          { Email := a, Domain := extractDomain T a, Status := S, FirstSeen := n₁,
            LastSeen := n₂, SeenCount := 1, LastAction := 0 } := by
      simp [RecordEmail, hget]
    rw [hrec]
    refine ⟨nodup_keys_mapSet _ _ _ hnd, ?_, ?_⟩
    · intro kv hkv
      rcases mem_mapSet_eq _ _ _ _ hkv with h | h
      · exact hkeys kv h
      · subst h
        exact ⟨rfl, rfl⟩
    · apply domainsAgree_mapSet _ _ _ hag
      intro kv hkv hd
      simp only at hd
      have hscan := scanDomain_eq_of_agree (extractDomain T a) (t.records.map Prod.snd)
        (fun r hr => by
          obtain ⟨kv', hkv', rfl⟩ := List.mem_map.mp hr
          exact hdec kv' hkv')
        (fun r₁ hr₁ r₂ hr₂ => by
          obtain ⟨kv₁, hkv₁, rfl⟩ := List.mem_map.mp hr₁
          obtain ⟨kv₂, hkv₂, rfl⟩ := List.mem_map.mp hr₂
          exact hag kv₁ hkv₁ kv₂ hkv₂)
        kv.2 (List.mem_map.mpr ⟨kv, hkv, rfl⟩) hd
      have hst : GetStatus T t a = kv.2.Status := by
        simp only [GetStatus, hget]
        exact hscan
      simp only
      rcases hdec kv hkv with h | h
      · rw [h]
        exact (h1 (hst.trans h)).symm
      · rw [h]
        exact (h2 (hst.trans h)).symm
  | some r =>
    have hrS : r.Status = S := status_eq_of_own_record T t a S r hinv' h1 h2 hget
    have hmem := mem_of_mapGet _ _ _ hget
    have hrec : (RecordEmail T t a S n₁ n₂ e).1.records =
        mapSet t.records (ToLower T a)
          { r with LastSeen := n₁, SeenCount := wrapInt64 (r.SeenCount + 1) } := by
      simp [RecordEmail, hget, hrS]
    rw [hrec]
    refine ⟨nodup_keys_mapSet _ _ _ hnd, ?_, ?_⟩
    · intro kv hkv
      rcases mem_mapSet_eq _ _ _ _ hkv with h | h
      · exact hkeys kv h
      · subst h
        exact hkeys (ToLower T a, r) hmem
    · apply domainsAgree_mapSet _ _ _ hag
      intro kv hkv hd
      exact hag kv hkv _ hmem hd

/-- Under the same conditions `RecordEmail` keeps the status of every record. -/
theorem recordEmail_status_kept (T : CaseTable) (t : Tracker) (a : String) (S : EmailStatus)
    (n₁ n₂ : Time) (e : Option String) (hinv : LedgerInv T t)
    (h1 : GetStatus T t a = StatusSubscribed → S = StatusSubscribed)
    (h2 : GetStatus T t a = StatusUnsubscribed → S = StatusUnsubscribed)
    (key : String) (r : EmailRecord) (hget : mapGet t.records key = some r) :
    ∃ r', mapGet (RecordEmail T t a S n₁ n₂ e).1.records key = some r' ∧
      r'.Status = r.Status := by
  by_cases hk : ToLower T a = key
  · subst hk
    have hrS : r.Status = S := status_eq_of_own_record T t a S r hinv h1 h2 hget
    refine ⟨_, recordEmail_existing T t a S n₁ n₂ e r hget, ?_⟩
    simp [hrS]
  · exact ⟨r, by rw [recordEmail_other_key T t a S n₁ n₂ e key hk, hget], rfl⟩

/-- The tracker after `processEmail`, with the link between the recorded status and the
status `GetStatus` returned. -/
theorem processEmail_tracker_cases_status (T : CaseTable) (seed : List String) (t : Tracker)
    (w : World) (email : Email) :
    (processEmail T seed t w email).tracker = t ∨
    ∃ b : Bool, (processEmail T seed t w email).tracker =
      (RecordEmail T t email.From (if b then StatusSubscribed else StatusUnsubscribed)
        w.now₁ w.now₂ w.saveErr).1 ∧
      (GetStatus T t email.From = StatusSubscribed → b = true) ∧
      (GetStatus T t email.From = StatusUnsubscribed → b = false) := by
  have hne : StatusUnsubscribed ≠ StatusSubscribed := by decide
  unfold processEmail
  split
  · exact Or.inl rfl
  · exact Or.inl rfl
  · dsimp only
    split_ifs with h1 h2
    · refine Or.inr ⟨true, applyOutcome_tracker _ _ _ _ _ _, fun _ => rfl, fun h => ?_⟩
      rw [h] at h1
      exact absurd h1 hne
    · exact Or.inr ⟨false, applyOutcome_tracker _ _ _ _ _ _, fun h => absurd h h1,
        fun _ => rfl⟩
    · split
      · exact Or.inl rfl
      · exact Or.inr ⟨_, applyOutcome_tracker _ _ _ _ _ _, fun h => absurd h h1,
          fun h => absurd h h2⟩

theorem processEmail_ledgerInv (T : CaseTable) (seed : List String) (t : Tracker)
    (w : World) (email : Email) (hinv : LedgerInv T t) :
    LedgerInv T (processEmail T seed t w email).tracker := by
  rcases processEmail_tracker_cases_status T seed t w email with h | ⟨b, h, h1, h2⟩
  · rw [h]
    exact hinv
  · rw [h]
    apply recordEmail_ledgerInv T t _ _ _ _ _ hinv
    · cases b
      · exact Or.inr rfl
      · exact Or.inl rfl
    · intro hs
      rw [h1 hs]
      rfl
    · intro hs
      rw [h2 hs]
      rfl

theorem processEmail_status_kept (T : CaseTable) (seed : List String) (t : Tracker)
    (w : World) (email : Email) (hinv : LedgerInv T t) (key : String) (r : EmailRecord)
    (hget : mapGet t.records key = some r) :
    ∃ r', mapGet (processEmail T seed t w email).tracker.records key = some r' ∧
      r'.Status = r.Status := by
  rcases processEmail_tracker_cases_status T seed t w email with h | ⟨b, h, h1, h2⟩
  · rw [h]
    exact ⟨r, hget, rfl⟩
  · rw [h]
    apply recordEmail_status_kept T t _ _ _ _ _ hinv _ _ key r hget
    · intro hs
      rw [h1 hs]
      rfl
    · intro hs
      rw [h2 hs]
      rfl

theorem processEmails_ledgerInv (T : CaseTable) (seed : List String)
    (batch : List (Email × World)) (t : Tracker) (hinv : LedgerInv T t) :
    LedgerInv T (processEmails T seed t batch).1 := by
  induction batch generalizing t with
  | nil => exact hinv
  | cons m rest ih =>
    obtain ⟨email, w⟩ := m
    exact ih _ (processEmail_ledgerInv T seed t w email hinv)

theorem processEmails_status_kept (T : CaseTable) (seed : List String)
    (batch : List (Email × World)) (t : Tracker) (hinv : LedgerInv T t) (key : String)
    (r : EmailRecord) (hget : mapGet t.records key = some r) :
    ∃ r', mapGet (processEmails T seed t batch).1.records key = some r' ∧
      r'.Status = r.Status := by
  induction batch generalizing t r with
  | nil => exact ⟨r, hget, rfl⟩
  | cons m rest ih =>
    obtain ⟨email, w⟩ := m
    obtain ⟨r₁, hget₁, hs₁⟩ := processEmail_status_kept T seed t w email hinv key r hget
    obtain ⟨r', hget', hs'⟩ :=
      ih _ (processEmail_ledgerInv T seed t w email hinv) r₁ hget₁
    exact ⟨r', hget', hs'.trans hs₁⟩

theorem processEmails_append (T : CaseTable) (seed : List String) (t : Tracker)
    (batch more : List (Email × World)) :
    (processEmails T seed t (batch ++ more)).1 =
      (processEmails T seed (processEmails T seed t batch).1 more).1 := by
  induction batch generalizing t with
  | nil => rfl
  | cons m rest ih =>
    obtain ⟨email, w⟩ := m
    exact ih _

theorem ledgerInv_empty (T : CaseTable) : LedgerInv T emptyTracker := by
  refine ⟨?_, ?_, ?_, ?_⟩
  · intro kv hkv
    simp [emptyTracker] at hkv
  · simp [emptyTracker]
  · intro kv hkv
    simp [emptyTracker] at hkv
  · intro kv hkv
    simp [emptyTracker] at hkv

/-- In a ledger that satisfies the invariant `GetStatus` does not depend on the order
in which the records are iterated. -/
theorem getStatus_perm (T : CaseTable) (t : Tracker) (order : Records) (b : String)
    (hinv : LedgerInv T t) (hp : order.Perm t.records) :
    GetStatus T ⟨order⟩ b = GetStatus T t b := by
  obtain ⟨hdec, hnd, _, hag⟩ := hinv
  unfold GetStatus
  simp only [mapGet_perm t.records order (ToLower T b) hnd hp]
  cases mapGet t.records (ToLower T b) with
  | some r => rfl
  | none =>
    simp only
    by_cases hex : ∃ kv ∈ t.records, kv.2.Domain = extractDomain T b
    · obtain ⟨kv, hkv, hd⟩ := hex
      have hleft := scanDomain_eq_of_agree (extractDomain T b) (order.map Prod.snd)
        (fun r hr => by
          obtain ⟨kv', hkv', rfl⟩ := List.mem_map.mp hr
          exact hdec kv' (hp.mem_iff.mp hkv'))
        (fun r₁ hr₁ r₂ hr₂ => by
          obtain ⟨kv₁, hkv₁, rfl⟩ := List.mem_map.mp hr₁
          obtain ⟨kv₂, hkv₂, rfl⟩ := List.mem_map.mp hr₂
          exact hag kv₁ (hp.mem_iff.mp hkv₁) kv₂ (hp.mem_iff.mp hkv₂))
        kv.2 (List.mem_map.mpr ⟨kv, hp.mem_iff.mpr hkv, rfl⟩) hd
      have hright := scanDomain_eq_of_agree (extractDomain T b) (t.records.map Prod.snd)
        (fun r hr => by
          obtain ⟨kv', hkv', rfl⟩ := List.mem_map.mp hr
          exact hdec kv' hkv')
        (fun r₁ hr₁ r₂ hr₂ => by
          obtain ⟨kv₁, hkv₁, rfl⟩ := List.mem_map.mp hr₁
          obtain ⟨kv₂, hkv₂, rfl⟩ := List.mem_map.mp hr₂
          exact hag kv₁ hkv₁ kv₂ hkv₂)
        kv.2 (List.mem_map.mpr ⟨kv, hkv, rfl⟩) hd
      rw [hleft, hright]
    · have hno : ∀ kv ∈ t.records, kv.2.Domain ≠ extractDomain T b :=
        fun kv hkv hd => hex ⟨kv, hkv, hd⟩
      rw [scanDomain_of_no_match, scanDomain_of_no_match]
      · intro r hr
        obtain ⟨kv, hkv, rfl⟩ := List.mem_map.mp hr
        exact hno kv hkv
      · intro r hr
        obtain ⟨kv, hkv, rfl⟩ := List.mem_map.mp hr
        exact hno kv (hp.mem_iff.mp hkv)

/-! ## The ledger (tracker.go) -/

/-- C2 (idempotence of RecordEmail): when the address has no record, one call creates
the record under the lower-cased address with LastAction unset, and a second call with
the same status leaves it with SeenCount 2, the same status and LastAction still unset;
only LastSeen moved. -/
theorem C2_recordEmail_twice_same_status (T : CaseTable) (t : Tracker) (a : String)
    (S : EmailStatus) (n₁ n₂ m₁ m₂ : Time) (e₁ e₂ : Option String)
    (h : mapGet t.records (ToLower T a) = none) :
    mapGet (RecordEmail T t a S n₁ n₂ e₁).1.records (ToLower T a) =
      some { Email := a, Domain := extractDomain T a, Status := S, FirstSeen := n₁,
             LastSeen := n₂, SeenCount := 1, LastAction := 0 } ∧
    mapGet (RecordEmail T (RecordEmail T t a S n₁ n₂ e₁).1 a S m₁ m₂ e₂).1.records
        (ToLower T a) =
      some { Email := a, Domain := extractDomain T a, Status := S, FirstSeen := n₁,
             LastSeen := m₁, SeenCount := 2, LastAction := 0 } := by
  have h₁ := recordEmail_fresh T t a S n₁ n₂ e₁ h
  refine ⟨h₁, ?_⟩
  rw [recordEmail_existing T _ a S m₁ m₂ e₂ _ h₁]
  simp [wrapInt64]

theorem C2_recordEmail_twice_same_status_witness :
    mapGet emptyTracker.records (ToLower asciiCase "A@X.com") = none ∧
    mapGet (RecordEmail asciiCase
        (RecordEmail asciiCase emptyTracker "A@X.com" StatusSubscribed 10 11 none).1
        "A@X.com" StatusSubscribed 20 21 none).1.records (ToLower asciiCase "A@X.com") =
      some { Email := "A@X.com", Domain := extractDomain asciiCase "A@X.com",
             Status := StatusSubscribed, FirstSeen := 10, LastSeen := 20, SeenCount := 2,
             LastAction := 0 } :=
  ⟨by decide,
   (C2_recordEmail_twice_same_status asciiCase emptyTracker "A@X.com" StatusSubscribed
      10 11 20 21 none none (by decide)).2⟩

/-- C3 as stated fails: the second call stores two separate clock readings, the first
as LastSeen and the second as LastAction, so LastAction need not be the instant of
LastSeen. With readings 20 and 21 in the second call the record has LastSeen 20 and
LastAction 21. -/
theorem C3_lastAction_same_instant_counterexample :
    ¬ ∀ (T : CaseTable) (t : Tracker) (a : String) (n₁ n₂ m₁ m₂ : Time)
        (e₁ e₂ : Option String), mapGet t.records (ToLower T a) = none →
        ∃ r, mapGet (RecordEmail T (RecordEmail T t a StatusSubscribed n₁ n₂ e₁).1 a
                StatusUnsubscribed m₁ m₂ e₂).1.records (ToLower T a) = some r ∧
          r.Status = StatusUnsubscribed ∧ r.SeenCount = 2 ∧ r.LastAction = r.LastSeen ∧
          r.FirstSeen = n₁ := by
  intro hall
  obtain ⟨r, hr, _, _, hla, _⟩ :=
    hall asciiCase emptyTracker "a@x.com" 10 11 20 21 none none (by decide)
  have hc : mapGet (RecordEmail asciiCase
      (RecordEmail asciiCase emptyTracker "a@x.com" StatusSubscribed 10 11 none).1 "a@x.com"
      StatusUnsubscribed 20 21 none).1.records (ToLower asciiCase "a@x.com") =
      some { Email := "a@x.com", Domain := "x.com", Status := StatusUnsubscribed,
             FirstSeen := 10, LastSeen := 20, SeenCount := 2, LastAction := 21 } := by
    decide
  rw [hc] at hr
  cases hr
  exact absurd hla (by decide)

/-- C3 (amended): when the address has no record, RecordEmail with Subscribed followed
by RecordEmail with Unsubscribed leaves the record with status Unsubscribed, SeenCount 2,
FirstSeen the first clock reading of the first call, LastSeen the first clock reading of
the second call and LastAction the second clock reading of the second call. -/
theorem C3_status_flip_sets_lastAction (T : CaseTable) (t : Tracker) (a : String)
    (n₁ n₂ m₁ m₂ : Time) (e₁ e₂ : Option String)
    (h : mapGet t.records (ToLower T a) = none) :
    mapGet (RecordEmail T (RecordEmail T t a StatusSubscribed n₁ n₂ e₁).1 a
        StatusUnsubscribed m₁ m₂ e₂).1.records (ToLower T a) =
      some { Email := a, Domain := extractDomain T a, Status := StatusUnsubscribed,
             FirstSeen := n₁, LastSeen := m₁, SeenCount := 2, LastAction := m₂ } := by
  have h₁ := recordEmail_fresh T t a StatusSubscribed n₁ n₂ e₁ h
  rw [recordEmail_existing T _ a StatusUnsubscribed m₁ m₂ e₂ _ h₁]
  have hne : StatusSubscribed ≠ StatusUnsubscribed := by decide
  simp [wrapInt64, hne]

theorem C3_status_flip_sets_lastAction_witness :
    mapGet emptyTracker.records (ToLower asciiCase "a@x.com") = none ∧
    mapGet (RecordEmail asciiCase
        (RecordEmail asciiCase emptyTracker "a@x.com" StatusSubscribed 10 11 none).1
        "a@x.com" StatusUnsubscribed 20 21 none).1.records (ToLower asciiCase "a@x.com") =
      some { Email := "a@x.com", Domain := extractDomain asciiCase "a@x.com",
             Status := StatusUnsubscribed, FirstSeen := 10, LastSeen := 20,
             SeenCount := 2, LastAction := 21 } :=
  ⟨by decide,
   C3_status_flip_sets_lastAction asciiCase emptyTracker "a@x.com" 10 11 20 21 none none
     (by decide)⟩

/-- C4 (case-insensitive identity): for every ledger and status, right after
RecordEmail on an address, GetStatus on any address with the same lower-cased form
returns the recorded status. -/
theorem C4_getStatus_after_recordEmail (T : CaseTable) (t : Tracker) (a a' : String)
    (S : EmailStatus) (n₁ n₂ : Time) (e : Option String)
    (h : ToLower T a = ToLower T a') :
    GetStatus T (RecordEmail T t a S n₁ n₂ e).1 a' = S := by
  unfold GetStatus
  simp only [← h]
  cases hget : mapGet t.records (ToLower T a) with
  | none => simp [recordEmail_fresh T t a S n₁ n₂ e hget]
  | some r =>
    rw [recordEmail_existing T t a S n₁ n₂ e r hget]
    by_cases hs : r.Status = S
    · simp [hs]
    · simp [hs]

theorem C4_getStatus_after_recordEmail_witness :
    ToLower asciiCase "A@X.com" = ToLower asciiCase "a@x.com" ∧
    GetStatus asciiCase
      (RecordEmail asciiCase emptyTracker "A@X.com" StatusSubscribed 10 11 none).1
      "a@x.com" = StatusSubscribed :=
  ⟨by decide,
   C4_getStatus_after_recordEmail asciiCase emptyTracker "A@X.com" "a@x.com"
     StatusSubscribed 10 11 none (by decide)⟩

/-- C5 (domain fallback): in the ledger that holds only the record RecordEmail created
for an address with status Subscribed or Unsubscribed, GetStatus on an address that has
no record of its own and has the same derived domain returns that status. -/
theorem C5_getStatus_domain_fallback (T : CaseTable) (a b : String) (S : EmailStatus)
    (n₁ n₂ : Time) (e : Option String)
    (hS : S = StatusSubscribed ∨ S = StatusUnsubscribed)
    (hb : mapGet (RecordEmail T emptyTracker a S n₁ n₂ e).1.records (ToLower T b) = none)
    (hd : extractDomain T b = extractDomain T a) :
    GetStatus T (RecordEmail T emptyTracker a S n₁ n₂ e).1 b = S := by
  have hne : S ≠ StatusUnknown := by
    rcases hS with rfl | rfl <;> decide
  unfold GetStatus
  simp only [hb]
  simp [RecordEmail, emptyTracker, mapGet, mapSet, scanDomain, hd, hne]

theorem C5_getStatus_domain_fallback_witness :
    (StatusSubscribed = StatusSubscribed ∨ StatusSubscribed = StatusUnsubscribed) ∧
    mapGet (RecordEmail asciiCase emptyTracker "news@sender.com" StatusSubscribed
      10 11 none).1.records (ToLower asciiCase "promo@sender.com") = none ∧
    extractDomain asciiCase "promo@sender.com" = extractDomain asciiCase "news@sender.com" ∧
    GetStatus asciiCase
      (RecordEmail asciiCase emptyTracker "news@sender.com" StatusSubscribed 10 11 none).1
      "promo@sender.com" = StatusSubscribed :=
  ⟨by decide, by decide, by decide,
   C5_getStatus_domain_fallback asciiCase "news@sender.com" "promo@sender.com"
     StatusSubscribed 10 11 none (by decide) (by decide) (by decide)⟩

/-- C10 (Unknown default): GetStatus returns Unknown for an address when no record is
keyed by its lower-cased form and no record has its derived domain; on the empty ledger
it returns Unknown for every address. -/
theorem C10_getStatus_unknown_default (T : CaseTable) :
    (∀ (t : Tracker) (b : String), mapGet t.records (ToLower T b) = none →
        (∀ kv ∈ t.records, kv.2.Domain ≠ extractDomain T b) →
        GetStatus T t b = StatusUnknown) ∧
    (∀ b : String, GetStatus T emptyTracker b = StatusUnknown) := by
  constructor
  · intro t b hkey hdom
    unfold GetStatus
    simp only [hkey]
    apply scanDomain_of_no_match
    intro r hr
    obtain ⟨kv, hkv, rfl⟩ := List.mem_map.mp hr
    exact hdom kv hkv
  · intro b
    rfl

theorem C10_getStatus_unknown_default_witness :
    mapGet (RecordEmail asciiCase emptyTracker "news@sender.com" StatusSubscribed
      10 11 none).1.records (ToLower asciiCase "bob@other.org") = none ∧
    (∀ kv ∈ (RecordEmail asciiCase emptyTracker "news@sender.com" StatusSubscribed
      10 11 none).1.records, kv.2.Domain ≠ extractDomain asciiCase "bob@other.org") ∧
    GetStatus asciiCase
      (RecordEmail asciiCase emptyTracker "news@sender.com" StatusSubscribed 10 11 none).1
      "bob@other.org" = StatusUnknown :=
  ⟨by decide, by decide,
   (C10_getStatus_unknown_default asciiCase).1 _ "bob@other.org" (by decide) (by decide)⟩

/-! ## The decision pipeline (processor.go) -/

/-- C1 (pipeline convergence): when the ledger holds a record for the sender at
Subscribed, processing any number of messages from that sender which the newsletter
check answers YES for makes, per message, exactly the newsletter oracle call, the
ledger file write and the request of label Newsletter, so the subscription-check
oracle is never called, and the record of the sender is at Subscribed afterwards. The
worlds are arbitrary, so this holds whatever the subscription oracle would answer. -/
theorem C1_pipeline_convergence (T : CaseTable) (seed : List String) (t : Tracker)
    (s : String) (r : EmailRecord) (msgs : List (Email × World))
    (hr : mapGet t.records (ToLower T s) = some r) (hs : r.Status = StatusSubscribed)
    (hmsgs : ∀ m ∈ msgs, m.1.From = s ∧ AnswersYes T m.2 m.1) :
    List.Forall₂
      (fun m out =>
        out.trace = [Effect.complete (newsletterPrompt m.1), Effect.writeFile,
                     Effect.applyLabel m.1.ID LabelNewsletter] ∧
        ∀ sender subject list,
          Effect.complete (Prompt.subscribed sender subject list) ∉ out.trace)
      msgs (processEmails T seed t msgs).2 ∧
    ∃ r', mapGet (processEmails T seed t msgs).1.records (ToLower T s) = some r' ∧
      r'.Status = StatusSubscribed := by
  induction msgs generalizing t r with
  | nil => exact ⟨List.Forall₂.nil, r, hr, hs⟩
  | cons m rest ih =>
    obtain ⟨email, w⟩ := m
    obtain ⟨hfrom, hyes⟩ := hmsgs (email, w) (List.mem_cons_self _ _)
    simp only at hfrom hyes
    subst hfrom
    obtain ⟨htrace, r', hr', hs'⟩ := processEmail_of_subscribed T seed t w email r hr hs hyes
    obtain ⟨hall, hfinal⟩ := ih (processEmail T seed t w email).tracker r' hr' hs'
      (fun m hm => hmsgs m (List.mem_cons_of_mem _ hm))
    refine ⟨List.Forall₂.cons ⟨htrace, ?_⟩ hall, hfinal⟩
    intro sender subject list
    rw [htrace]
    simp [newsletterPrompt]

theorem C1_pipeline_convergence_witness :
    mapGet senderSubscribed.records (ToLower asciiCase "News@Sender.com") =
      some { Email := "news@sender.com", Domain := "sender.com", Status := StatusSubscribed,
             FirstSeen := 10, LastSeen := 11, SeenCount := 1, LastAction := 0 } ∧
    (∀ m ∈ [(digestEmail, yesWorld), (offerEmail, yesWorld)],
      m.1.From = "News@Sender.com" ∧ AnswersYes asciiCase m.2 m.1) ∧
    ∃ r', mapGet (processEmails asciiCase [] senderSubscribed
        [(digestEmail, yesWorld), (offerEmail, yesWorld)]).1.records
        (ToLower asciiCase "News@Sender.com") = some r' ∧ r'.Status = StatusSubscribed :=
  have hmsgs : ∀ m ∈ [(digestEmail, yesWorld), (offerEmail, yesWorld)],
      m.1.From = "News@Sender.com" ∧ AnswersYes asciiCase m.2 m.1 := by
    intro m hm
    simp only [List.mem_cons, List.mem_singleton, List.not_mem_nil, or_false] at hm
    rcases hm with rfl | rfl
    · exact ⟨rfl, " yes\n", rfl, by decide⟩
    · exact ⟨rfl, " yes\n", rfl, by decide⟩
  ⟨by decide, hmsgs,
   (C1_pipeline_convergence asciiCase [] senderSubscribed "News@Sender.com"
      { Email := "news@sender.com", Domain := "sender.com", Status := StatusSubscribed,
        FirstSeen := 10, LastSeen := 11, SeenCount := 1, LastAction := 0 }
      [(digestEmail, yesWorld), (offerEmail, yesWorld)] (by decide) (by decide) hmsgs).2⟩

/-- C6 (statistics consistency): after any batch processed from the empty ledger, with
any oracle answers and any label or persistence failures, GetStatistics has
total_emails = subscribed_count + unsubscribed_count + unknown_count and
unknown_count = 0. -/
theorem C6_statistics_consistency (T : CaseTable) (seed : List String)
    (batch : List (Email × World)) :
    (GetStatistics (processEmails T seed emptyTracker batch).1).total_emails =
      (GetStatistics (processEmails T seed emptyTracker batch).1).subscribed_count +
      (GetStatistics (processEmails T seed emptyTracker batch).1).unsubscribed_count +
      (GetStatistics (processEmails T seed emptyTracker batch).1).unknown_count ∧
    (GetStatistics (processEmails T seed emptyTracker batch).1).unknown_count = 0 := by
  have hempty : AllDecided emptyTracker := by
    intro kv hkv
    simp [emptyTracker] at hkv
  have hall := processEmails_allDecided T seed batch emptyTracker hempty
  generalize (processEmails T seed emptyTracker batch).1 = t at hall
  have hrs : ∀ r ∈ t.records.map Prod.snd,
      r.Status = StatusSubscribed ∨ r.Status = StatusUnsubscribed := by
    intro r hr
    obtain ⟨kv, hkv, rfl⟩ := List.mem_map.mp hr
    exact hall kv hkv
  obtain ⟨h1, h2, h3⟩ := foldl_countRecord_decided _
    { total_emails := (t.records.length : Int), subscribed_count := 0,
      unsubscribed_count := 0, unknown_count := 0 } hrs
  simp only [List.length_map, zero_add] at h1 h2 h3
  unfold GetStatistics
  rw [h1, h2, h3]
  simp

/-- C7 (empty candidate list short-circuit): for a message that passes the newsletter
check and whose sender has ledger status Unknown, with an empty seed list and no record
at Subscribed, the only oracle call is the newsletter one, the label requested is
Unsubscribe and the sender is recorded at Unsubscribed. -/
theorem C7_empty_candidates_short_circuit (T : CaseTable) (t : Tracker) (w : World)
    (email : Email) (hyes : AnswersYes T w email)
    (hunknown : GetStatus T t email.From = StatusUnknown)
    (hnone : ∀ kv ∈ t.records, kv.2.Status ≠ StatusSubscribed) :
    (processEmail T [] t w email).trace =
      [Effect.complete (newsletterPrompt email), Effect.writeFile,
       Effect.applyLabel email.ID LabelUnsubscribe] ∧
    (∀ sender subject list, Effect.complete (Prompt.subscribed sender subject list) ∉
      (processEmail T [] t w email).trace) ∧
    ∃ r, mapGet (processEmail T [] t w email).tracker.records (ToLower T email.From) =
        some r ∧ r.Status = StatusUnsubscribed := by
  have hsub : GetSubscribedEmails t = [] := by
    unfold GetSubscribedEmails
    rw [List.map_eq_nil_iff, List.filter_eq_nil_iff]
    intro kv hkv
    simpa using hnone kv hkv
  have h1 : StatusUnknown ≠ StatusSubscribed := by decide
  have h2 : StatusUnknown ≠ StatusUnsubscribed := by decide
  have hproc : processEmail T [] t w email =
      applyOutcome T t w email false [Effect.complete (newsletterPrompt email)] := by
    simp [processEmail, isNewsletter_of_answersYes T w email hyes, hunknown, h1, h2,
      isSubscribedNewsletter, hsub]
  have htrace : (processEmail T [] t w email).trace =
      [Effect.complete (newsletterPrompt email), Effect.writeFile,
       Effect.applyLabel email.ID LabelUnsubscribe] := by
    rw [hproc, applyOutcome_trace]
    simp
  refine ⟨htrace, ?_, ?_⟩
  · intro sender subject list
    rw [htrace]
    simp [newsletterPrompt]
  · rw [hproc, applyOutcome_tracker]
    cases hget : mapGet t.records (ToLower T email.From) with
    | none =>
      exact ⟨_, recordEmail_fresh T t email.From _ w.now₁ w.now₂ w.saveErr hget, by simp⟩
    | some r =>
      refine ⟨_, recordEmail_existing T t email.From _ w.now₁ w.now₂ w.saveErr r hget, ?_⟩
      by_cases hs : r.Status = StatusUnsubscribed
      · simp [hs]
      · simp [hs]

theorem C7_empty_candidates_short_circuit_witness :
    AnswersYes asciiCase yesWorld digestEmail ∧
    GetStatus asciiCase emptyTracker digestEmail.From = StatusUnknown ∧
    (∀ kv ∈ emptyTracker.records, kv.2.Status ≠ StatusSubscribed) ∧
    (processEmail asciiCase [] emptyTracker yesWorld digestEmail).trace =
      [Effect.complete (newsletterPrompt digestEmail), Effect.writeFile,
       Effect.applyLabel digestEmail.ID LabelUnsubscribe] :=
  ⟨⟨" yes\n", rfl, by decide⟩, by decide, by decide,
   (C7_empty_candidates_short_circuit asciiCase emptyTracker yesWorld digestEmail
      ⟨" yes\n", rfl, by decide⟩ (by decide) (by decide)).1⟩

/-- C8 (oracle reply parsing): for a case table whose upper-casing keeps every rune in
or out of the white space class (as the ASCII and the Unicode tables do), trimming the
upper-cased reply gives the same string as upper-casing the trimmed reply; so the YES
check of the code agrees with the check in the order the specification words it, the
empty reply is a no, and for every reply the oracle returns without a transport error
isNewsletter, and isSubscribedNewsletter when its candidate list is not empty, return
without error the truth value of: the reply trimmed, then upper-cased, equals YES. -/
theorem C8_oracle_reply_parsing (T : CaseTable)
    (hsp : ∀ c, isSpace (T.toUpper c) = isSpace c) :
    (∀ r : String, TrimSpace (ToUpper T r) = ToUpper T (TrimSpace r)) ∧
    (∀ r : String, replyIsYes T r = specReplyIsYes T r) ∧
    specReplyIsYes T "" = false ∧
    (∀ (w : World) (email : Email) (r : String),
      w.complete (newsletterPrompt email) = .ok r →
      (isNewsletter T w email).1 = .ok (specReplyIsYes T r)) ∧
    (∀ (seed : List String) (t : Tracker) (w : World) (email : Email) (r : String),
      seed ++ GetSubscribedEmails t ≠ [] →
      w.complete (Prompt.subscribed email.From email.Subject
        (seed ++ GetSubscribedEmails t)) = .ok r →
      (isSubscribedNewsletter T seed t w email).1 = .ok (specReplyIsYes T r)) := by
  have hsame : ∀ r : String, replyIsYes T r = specReplyIsYes T r := by
    intro r
    simp only [replyIsYes, specReplyIsYes, trimSpace_toUpper_comm T hsp r]
  refine ⟨trimSpace_toUpper_comm T hsp, hsame, ?_, ?_, ?_⟩
  · simp [specReplyIsYes, TrimSpace, ToUpper]
  · intro w email r hr
    simp only [newsletterPrompt] at hr
    simp [isNewsletter, hr, hsame]
  · intro seed t w email r hne hr
    have hlen : ¬ (seed ++ GetSubscribedEmails t).length = 0 := by
      simpa [List.length_eq_zero] using hne
    simp only [isSubscribedNewsletter, hlen, if_false, hr, hsame]

theorem C8_oracle_reply_parsing_witness :
    (∀ c, isSpace (asciiCase.toUpper c) = isSpace c) ∧
    replyIsYes asciiCase " yes\n" = specReplyIsYes asciiCase " yes\n" ∧
    (isNewsletter asciiCase yesWorld digestEmail).1 = .ok (specReplyIsYes asciiCase " yes\n") :=
  ⟨asciiToUpper_isSpace,
   (C8_oracle_reply_parsing asciiCase asciiToUpper_isSpace).2.1 " yes\n",
   (C8_oracle_reply_parsing asciiCase asciiToUpper_isSpace).2.2.2.1 yesWorld digestEmail
     " yes\n" rfl⟩

/-- C9 (non-newsletters are left alone): when the newsletter check fails or its reply
does not pass the YES check, processEmail leaves the tracker as it was, makes the
newsletter oracle call and no other call (no file write, no label, no subscription
check), and returns an error exactly when the oracle call failed. -/
theorem C9_non_newsletter_untouched (T : CaseTable) (seed : List String) (t : Tracker)
    (w : World) (email : Email)
    (hno : ∀ reply, w.complete (newsletterPrompt email) = .ok reply →
      replyIsYes T reply = false) :
    (processEmail T seed t w email).tracker = t ∧
    (processEmail T seed t w email).trace = [Effect.complete (newsletterPrompt email)] ∧
    ((processEmail T seed t w email).err ≠ none ↔
      ∃ e, w.complete (newsletterPrompt email) = .error e) := by
  simp only [newsletterPrompt] at hno
  cases hc : w.complete (Prompt.newsletter email.From email.Subject email.Body) with
  | error e => simp [processEmail, isNewsletter, newsletterPrompt, hc]
  | ok reply =>
    have hf := hno reply hc
    simp [processEmail, isNewsletter, newsletterPrompt, hc, hf]

theorem C9_non_newsletter_untouched_witness :
    (∀ reply, noWorld.complete (newsletterPrompt digestEmail) = .ok reply →
      replyIsYes asciiCase reply = false) ∧
    (processEmail asciiCase [] senderSubscribed noWorld digestEmail).tracker =
      senderSubscribed ∧
    (processEmail asciiCase [] senderSubscribed noWorld digestEmail).trace =
      [Effect.complete (newsletterPrompt digestEmail)] :=
  have hno : ∀ reply, noWorld.complete (newsletterPrompt digestEmail) = .ok reply →
      replyIsYes asciiCase reply = false := by
    intro reply h
    have h' : reply = "No." := by
      simp only [noWorld, Except.ok.injEq] at h
      exact h.symm
    subst h'
    decide
  ⟨hno,
   (C9_non_newsletter_untouched asciiCase [] senderSubscribed noWorld digestEmail hno).1,
   (C9_non_newsletter_untouched asciiCase [] senderSubscribed noWorld digestEmail hno).2.1⟩

/-! ## The address field and the domain agreement of the ledger -/

/-- C11 as stated fails: the record is stored under the lower-cased address, but its
address field is the address as passed. After RecordEmail of "A@X.com" at Subscribed on
the empty ledger GetSubscribedEmails returns "A@X.com", not "a@x.com". -/
theorem C11_canonical_address_counterexample :
    ¬ ((∀ (T : CaseTable) (t : Tracker) (a : String) (S : EmailStatus) (n₁ n₂ : Time)
          (e : Option String), mapGet t.records (ToLower T a) = none →
          ∃ r, mapGet (RecordEmail T t a S n₁ n₂ e).1.records (ToLower T a) = some r ∧
            r.Email = ToLower T a) ∧
       (∀ (T : CaseTable) (a : String) (n₁ n₂ : Time) (e : Option String),
          GetSubscribedEmails (RecordEmail T emptyTracker a StatusSubscribed n₁ n₂ e).1 =
            [ToLower T a])) := by
  rintro ⟨_, hall⟩
  have h := hall asciiCase "A@X.com" 10 11 none
  have hc : GetSubscribedEmails
      (RecordEmail asciiCase emptyTracker "A@X.com" StatusSubscribed 10 11 none).1 =
      ["A@X.com"] := by decide
  rw [hc] at h
  exact absurd h (by decide)

/-- C11 (amended): every record RecordEmail creates is stored under the lower-cased
sender address and holds as its address field the sender address as it was passed; so
after RecordEmail of an address at Subscribed on the empty ledger GetSubscribedEmails
returns exactly that address as passed, which is the lower-cased address whenever
lower-casing leaves the address unchanged. -/
theorem C11_address_stored_as_passed (T : CaseTable) :
    (∀ (t : Tracker) (a : String) (S : EmailStatus) (n₁ n₂ : Time) (e : Option String),
      mapGet t.records (ToLower T a) = none →
      ∃ r, mapGet (RecordEmail T t a S n₁ n₂ e).1.records (ToLower T a) = some r ∧
        r.Email = a) ∧
    (∀ (a : String) (n₁ n₂ : Time) (e : Option String),
      GetSubscribedEmails (RecordEmail T emptyTracker a StatusSubscribed n₁ n₂ e).1 = [a]) ∧
    (∀ (a : String) (n₁ n₂ : Time) (e : Option String), ToLower T a = a →
      GetSubscribedEmails (RecordEmail T emptyTracker a StatusSubscribed n₁ n₂ e).1 =
        [ToLower T a]) := by
  have hsub : ∀ (a : String) (n₁ n₂ : Time) (e : Option String),
      GetSubscribedEmails (RecordEmail T emptyTracker a StatusSubscribed n₁ n₂ e).1 = [a] := by
    intro a n₁ n₂ e
    simp [GetSubscribedEmails, RecordEmail, emptyTracker, mapGet, mapSet]
  refine ⟨?_, hsub, ?_⟩
  · intro t a S n₁ n₂ e h
    exact ⟨_, recordEmail_fresh T t a S n₁ n₂ e h, rfl⟩
  · intro a n₁ n₂ e hlow
    rw [hsub, hlow]

theorem C11_address_stored_as_passed_witness :
    mapGet emptyTracker.records (ToLower asciiCase "A@X.com") = none ∧
    ToLower asciiCase "a@x.com" = "a@x.com" ∧
    (∃ r, mapGet (RecordEmail asciiCase emptyTracker "A@X.com" StatusSubscribed
        10 11 none).1.records (ToLower asciiCase "A@X.com") = some r ∧
      r.Email = "A@X.com") ∧
    GetSubscribedEmails (RecordEmail asciiCase emptyTracker "a@x.com" StatusSubscribed
      10 11 none).1 = [ToLower asciiCase "a@x.com"] :=
  ⟨by decide, by decide,
   (C11_address_stored_as_passed asciiCase).1 emptyTracker "A@X.com" StatusSubscribed
     10 11 none (by decide),
   (C11_address_stored_as_passed asciiCase).2.2 "a@x.com" 10 11 none (by decide)⟩

/-- C12 (domain agreement invariant): in every ledger reached from the empty ledger by
processing a batch with processEmail, for any oracle answers and failures, every record
sits under its lower-cased address with the domain derived from that address, any two
records with the same derived domain have the same status, every record keeps its
status through any further batch, GetStatus returns the same status for every order in
which the records are iterated, and the domain fallback loop run in any order on the
domain of a record returns the status of that record. -/
theorem C12_domain_agreement (T : CaseTable) (seed : List String)
    (batch : List (Email × World)) :
    (∀ kv ∈ (processEmails T seed emptyTracker batch).1.records,
      kv.1 = ToLower T kv.2.Email ∧ kv.2.Domain = extractDomain T kv.2.Email) ∧
    (∀ kv₁ ∈ (processEmails T seed emptyTracker batch).1.records,
      ∀ kv₂ ∈ (processEmails T seed emptyTracker batch).1.records,
      extractDomain T kv₁.2.Email = extractDomain T kv₂.2.Email →
      kv₁.2.Status = kv₂.2.Status) ∧
    (∀ (more : List (Email × World)) (key : String) (r : EmailRecord),
      mapGet (processEmails T seed emptyTracker batch).1.records key = some r →
      ∃ r', mapGet (processEmails T seed emptyTracker (batch ++ more)).1.records key =
          some r' ∧ r'.Status = r.Status) ∧
    (∀ (order : Records) (b : String),
      order.Perm (processEmails T seed emptyTracker batch).1.records →
      GetStatus T ⟨order⟩ b = GetStatus T (processEmails T seed emptyTracker batch).1 b) ∧
    (∀ (order : Records) (kv : String × EmailRecord),
      order.Perm (processEmails T seed emptyTracker batch).1.records →
      kv ∈ (processEmails T seed emptyTracker batch).1.records →
      scanDomain kv.2.Domain (order.map Prod.snd) = kv.2.Status) := by
  have hinv := processEmails_ledgerInv T seed batch emptyTracker (ledgerInv_empty T)
  have hinv' := hinv
  obtain ⟨hdec, _, hkeys, hag⟩ := hinv
  refine ⟨hkeys, ?_, ?_, ?_, ?_⟩
  · intro kv₁ h₁ kv₂ h₂ hd
    apply hag kv₁ h₁ kv₂ h₂
    rw [(hkeys kv₁ h₁).2, (hkeys kv₂ h₂).2]
    exact hd
  · intro more key r hget
    rw [processEmails_append]
    exact processEmails_status_kept T seed more _ hinv' key r hget
  · intro order b hp
    exact getStatus_perm T _ order b hinv' hp
  · intro order kv hp hkv
    exact scanDomain_eq_of_agree kv.2.Domain (order.map Prod.snd)
      (fun r hr => by
        obtain ⟨kv', hkv', rfl⟩ := List.mem_map.mp hr
        exact hdec kv' (hp.mem_iff.mp hkv'))
      (fun r₁ hr₁ r₂ hr₂ => by
        obtain ⟨kv₁, hkv₁, rfl⟩ := List.mem_map.mp hr₁
        obtain ⟨kv₂, hkv₂, rfl⟩ := List.mem_map.mp hr₂
        exact hag kv₁ (hp.mem_iff.mp hkv₁) kv₂ (hp.mem_iff.mp hkv₂))
      kv.2 (List.mem_map.mpr ⟨kv, hp.mem_iff.mpr hkv, rfl⟩) rfl

theorem C12_domain_agreement_witness :
    twoSenders.records.reverse.Perm twoSenders.records ∧
    twoSenders.records.map (fun kv => (kv.1, kv.2.Status)) =
      [("news@sender.com", StatusSubscribed), ("promo@sender.com", StatusSubscribed)] ∧
    GetStatus asciiCase ⟨twoSenders.records.reverse⟩ "other@sender.com" =
      StatusSubscribed ∧
    GetStatus asciiCase ⟨twoSenders.records.reverse⟩ "other@sender.com" =
      GetStatus asciiCase twoSenders "other@sender.com" :=
  ⟨List.reverse_perm _, by decide, by decide,
   (C12_domain_agreement asciiCase ["news@sender.com"]
      [(digestEmail, yesWorld), (promoEmail, newsletterOnlyWorld)]).2.2.2.1
      twoSenders.records.reverse "other@sender.com" (List.reverse_perm _)⟩

end CleanNewsletters
